import Mathlib

/-!
Verification of the step-sequencer melody model and piano-roll gesture
editing logic of the ZAM music-education application.

The embedding below follows the source files:
 * the `PianoRoll` component (timeline resolution `resolvedMelody`, the
   allowed-pitch predicate `isNoteAllowed`, and the pointer gesture
   handlers `handleGridPointerDown` / `handleGridPointerMove` /
   `handleGridPointerUp`);
 * `src/constants.ts` (`STEPS_PER_BAR`, `NUM_BARS`, `TOTAL_STEPS`,
   `SUSTAIN_TOKEN`, `SCALE_NOTES`);
 * `src/services/audio.ts` (the per-step sequence callback, `pause`,
   `stop`) and the `MonoMelody` component (`handleStop`).

A melody slot is a JavaScript `string | null`, modelled as
`Option String`.  JavaScript truthiness of a string (`if (token)`)
is modelled explicitly by `jsTruthy`, which is false for `null` and
for the empty string.
-/

namespace ZAM

/-- `STEPS_PER_BAR` from `src/constants.ts`. -/
def STEPS_PER_BAR : Nat := 8

/-- `NUM_BARS` from `src/constants.ts`. -/
def NUM_BARS : Nat := 4

/-- `TOTAL_STEPS = STEPS_PER_BAR * NUM_BARS` from `src/constants.ts`. -/
def TOTAL_STEPS : Nat := STEPS_PER_BAR * NUM_BARS

/-- `SUSTAIN_TOKEN` from `src/constants.ts`. -/
def SUSTAIN_TOKEN : String := "HOLD"

/-- `SCALE_NOTES` from `src/constants.ts`. -/
def SCALE_NOTES : List String := ["C", "D", "E", "F", "G", "A", "B"]

/-- A melody timeline: each slot is a pitch string, the sustain token, or
`null` (`Melody` in `src/types.ts`). -/
abbrev Melody := List (Option String)

/-- JavaScript truthiness of a `string | null` value: `null` and the empty
string are falsy, every other string is truthy. -/
def jsTruthy : Option String → Bool
  | none => false
  | some s => s ≠ ""

/-- A slot holding a concrete pitch: a truthy string other than the
sustain token. -/
def isPitchTok : Option String → Bool
  | none => false
  | some s => s ≠ "" && s ≠ SUSTAIN_TOKEN

/-- The loop body of `resolvedMelody` (PianoRoll component): a left-to-right
pass carrying the `lastPitch` variable.  A sustain slot outputs `lastPitch`;
a truthy slot becomes the new `lastPitch` and is output; a falsy slot clears
`lastPitch` and outputs `null`. -/
def resolveGo (lastPitch : Option String) : Melody → Melody
  | [] => []
  | t :: ts =>
    if t = some SUSTAIN_TOKEN then lastPitch :: resolveGo lastPitch ts
    else if jsTruthy t then t :: resolveGo t ts
    else none :: resolveGo none ts

/-- The source iterates `i` from `0` to `TOTAL_STEPS - 1` reading
`melody[i]`; an out-of-range JavaScript index reads as `undefined`
(falsy), modelled by padding/truncating the list to length `n`. -/
def padTo (n : Nat) (m : Melody) : Melody :=
  (List.range n).map (fun i => m.getD i none)

/-- `resolvedMelody` generalised over the number of steps (the source
fixes `TOTAL_STEPS`; the spec's Scenario A uses 8 steps). -/
def resolveSteps (n : Nat) (m : Melody) : Melody :=
  resolveGo none (padTo n m)

/-- `resolvedMelody` from the PianoRoll component. -/
def resolvedMelody (m : Melody) : Melody :=
  resolveSteps TOTAL_STEPS m

/-- `pitch.replace(/[0-9]/g, '')`: the pitch name with digit characters
removed. -/
def stripDigits (s : String) : String :=
  String.mk (s.data.filter (fun c => !c.isDigit))

/-- `NoteMode` from `src/types.ts`. -/
inductive NoteMode where
  | chromatic
  | scale
  | chord
deriving DecidableEq, Repr

/-- The fields of a `Chord` (`src/types.ts`) used by the core logic:
its member pitch classes and its root. -/
structure Chord where
  notes : List String
  root : String
deriving DecidableEq, Repr

/-- A progression: one chord per bar (the source type is a fixed 4-tuple,
but the code indexes it defensively, so we model a list). -/
abbrev Progression := List Chord

/-- `isNoteAllowed` from the PianoRoll component: chromatic mode allows
everything; scale mode checks the digit-stripped name against
`SCALE_NOTES`; chord mode looks up `progression[stepIndex / STEPS_PER_BAR]`
(returning false when absent) and checks membership in its notes. -/
def isNoteAllowed (nm : NoteMode) (prog : Progression) (pitch : String)
    (stepIndex : Nat) : Bool :=
  if nm = .chromatic then true
  else
    let noteName := stripDigits pitch
    if nm = .scale then SCALE_NOTES.contains noteName
    else
      match prog[stepIndex / STEPS_PER_BAR]? with
      | none => false
      | some chord => chord.notes.contains noteName

/-- `'create' | 'resize'` drag modes. -/
inductive DragMode where
  | create
  | resize
deriving DecidableEq, Repr

/-- The `dragState` object of the PianoRoll component. -/
structure DragState where
  isActive : Bool
  startStep : Nat
  pitch : String
  mode : DragMode
  hasMoved : Bool
deriving DecidableEq, Repr

/-- The backward walk in `handleGridPointerDown`:
`while (ptr > 0 && melody[ptr] === SUSTAIN_TOKEN) ptr--`. -/
def walkBack (mel : Melody) : Nat → Nat
  | 0 => 0
  | n + 1 =>
    if mel.getD (n + 1) none = some SUSTAIN_TOKEN then walkBack mel n
    else n + 1

/-- Result of a pointer-down: the new drag state, the emitted melody, and
the pitch previewed audibly (if any). -/
structure PointerDownResult where
  dragState : Option DragState
  melody : Melody
  preview : Option String
deriving DecidableEq, Repr

/-- `handleGridPointerDown` from the PianoRoll component, as a pure
function of the cell hit (`s`, `p`), the current melody and the current
drag state (returned unchanged on the early-return paths).  If the pitch
is disallowed the handler returns without starting a gesture.  If the
resolved pitch at `s` equals `p` it enters resize mode at the head of the
run without mutating; otherwise it writes `p` at `s`, emits the melody and
previews the note, entering create mode. -/
def handleGridPointerDown (nm : NoteMode) (prog : Progression)
    (ds0 : Option DragState) (mel : Melody) (s : Nat) (p : String) :
    PointerDownResult :=
  if isNoteAllowed nm prog p s then
    if (resolvedMelody mel).getD s none = some p then
      ⟨some ⟨true, walkBack mel s, p, .resize, false⟩, mel, none⟩
    else
      ⟨some ⟨true, s, p, .create, false⟩, mel.set s (some p), some p⟩
  else
    ⟨ds0, mel, none⟩

/-- The body of the forward-extension loop of `handleGridPointerMove`,
with the number of remaining iterations made explicit (the loop
`for (i = startStep+1; i <= step; i++)` runs at most `step + 1 - i`
times), so the recursion is structural and computable. -/
def writeSustainsAux (nm : NoteMode) (prog : Progression) (pitch : String) :
    Nat → Nat → Melody → Melody
  | 0, _, mel => mel
  | fuel + 1, i, mel =>
    if isNoteAllowed nm prog pitch i then
      writeSustainsAux nm prog pitch fuel (i + 1) (mel.set i (some SUSTAIN_TOKEN))
    else mel

/-- The forward-extension loop of `handleGridPointerMove`:
`for (i = startStep+1; i <= step; i++) { if (isNoteAllowed(pitch, i))
newMelody[i] = SUSTAIN_TOKEN; else break; }`. -/
def writeSustains (nm : NoteMode) (prog : Progression) (pitch : String)
    (i stop : Nat) (mel : Melody) : Melody :=
  writeSustainsAux nm prog pitch (stop + 1 - i) i mel

/-- The body of the forward-clearing loop shared by
`handleGridPointerMove` and `handleGridPointerUp`, with the number of
remaining iterations made explicit (the loop
`for (i = start; i < TOTAL_STEPS; i++)` runs at most `TOTAL_STEPS - i`
times). -/
def clearSustainsAux : Nat → Nat → Melody → Melody
  | 0, _, mel => mel
  | fuel + 1, i, mel =>
    if mel.getD i none = some SUSTAIN_TOKEN then
      clearSustainsAux fuel (i + 1) (mel.set i none)
    else mel

/-- The forward-clearing loop shared by `handleGridPointerMove` and
`handleGridPointerUp`: `for (i = start; i < TOTAL_STEPS; i++) {
if (newMelody[i] === SUSTAIN_TOKEN) newMelody[i] = null; else break; }`. -/
def clearSustains (i : Nat) (mel : Melody) : Melody :=
  clearSustainsAux (TOTAL_STEPS - i) i mel

/-- `handleGridPointerMove` from the PianoRoll component, as a pure
function of the step `s` the pointer position resolves to.  If no drag is
active nothing happens.  Otherwise `hasMoved` is set unconditionally; a
move to `s < startStep` is ignored; otherwise the melody is rebuilt: the
pitch at `startStep`, sustain markers forward while allowed, and leftover
sustain markers after `s` cleared. -/
def handleGridPointerMove (nm : NoteMode) (prog : Progression)
    (ds : Option DragState) (mel : Melody) (s : Nat) :
    Option DragState × Melody :=
  match ds with
  | none => (none, mel)
  | some d =>
    if d.isActive then
      let d' := { d with hasMoved := true }
      if s < d.startStep then (some d', mel)
      else
        let m1 := mel.set d.startStep (some d.pitch)
        let m2 := writeSustains nm prog d.pitch (d.startStep + 1) s m1
        let m3 := clearSustains (s + 1) m2
        (some d', m3)
    else (some d, mel)

/-- `handleGridPointerUp` from the PianoRoll component (also used for
pointer-leave).  A resize gesture with no movement deletes the note: the
head slot is cleared and trailing sustain markers are cleared forward.
Every other case leaves the melody alone.  The drag state is always
cleared. -/
def handleGridPointerUp (ds : Option DragState) (mel : Melody) :
    Option DragState × Melody :=
  match ds with
  | none => (none, mel)
  | some d =>
    if d.mode = .resize && !d.hasMoved then
      (none, clearSustains (d.startStep + 1) (mel.set d.startStep none))
    else (none, mel)

/-- The duration-counting loop of the audio sequence callback
(`src/services/audio.ts`): count consecutive sustain tokens starting at
index `i`, stopping at the melody's length. -/
def countSustains (mel : Melody) (i : Nat) : Nat :=
  if i < mel.length then
    if mel.getD i none = some SUSTAIN_TOKEN then countSustains mel (i + 1) + 1
    else 0
  else 0
termination_by mel.length - i

/-- The melody-note part of the `Tone.Sequence` callback in
`AudioService.init`: at step `i`, if `melody[i]` is truthy and not the
sustain token, trigger that pitch with duration
`1 + (consecutive sustain tokens after i)` subdivisions; otherwise no
melody note is triggered. -/
def tickNote (mel : Melody) (i : Nat) : Option (String × Nat) :=
  match mel.getD i none with
  | none => none
  | some p =>
    if p ≠ "" && p ≠ SUSTAIN_TOKEN then some (p, 1 + countSustains mel (i + 1))
    else none

/-! ### Helper lemmas -/

theorem getD_set {α : Type} (l : List α) (i j : Nat) (v d : α) :
    (l.set i v).getD j d = if i = j ∧ j < l.length then v else l.getD j d := by
  rw [List.getD_eq_getElem?_getD, List.getD_eq_getElem?_getD, List.getElem?_set]
  by_cases hij : i = j
  · subst hij
    by_cases hl : i < l.length
    · simp [hl]
    · have hle : l.length ≤ i := by omega
      simp [hl, List.getElem?_eq_none hle]
  · simp [hij]

theorem getD_some_lt_length {mel : Melody} {i : Nat} {x : String}
    (h : mel.getD i none = some x) : i < mel.length := by
  by_contra hc
  rw [List.getD_eq_default _ _ (by omega)] at h
  exact Option.noConfusion h

theorem length_resolveGo (h : Option String) (l : Melody) :
    (resolveGo h l).length = l.length := by
  induction l generalizing h with
  | nil => rfl
  | cons t ts ih =>
    simp only [resolveGo]
    by_cases hS : t = some SUSTAIN_TOKEN
    · simp [hS, ih]
    · by_cases hT : jsTruthy t <;> simp [hS, hT, ih]

theorem resolveGo_getD_pitch (l : Melody) (h : Option String) (j : Nat)
    (hp : isPitchTok (l.getD j none) = true) :
    (resolveGo h l).getD j none = l.getD j none := by
  induction l generalizing h j with
  | nil => simp [isPitchTok, List.getD] at hp
  | cons t ts ih =>
    cases j with
    | zero =>
      simp only [List.getD_cons_zero] at hp ⊢
      match t, hp with
      | some s, hp =>
        simp only [isPitchTok, Bool.and_eq_true, decide_eq_true_eq] at hp
        simp only [resolveGo]
        rw [if_neg (by simp [hp.2]), if_pos (by simp [jsTruthy, hp.1])]
        simp
    | succ j =>
      simp only [List.getD_cons_succ] at hp ⊢
      simp only [resolveGo]
      by_cases hS : t = some SUSTAIN_TOKEN
      · simp only [if_pos hS, List.getD_cons_succ]
        exact ih h j hp
      · by_cases hT : jsTruthy t
        · simp only [if_neg hS, if_pos hT, List.getD_cons_succ]
          exact ih t j hp
        · simp only [if_neg hS, if_neg hT, List.getD_cons_succ]
          exact ih none j hp

theorem padTo_eq_self (m : Melody) (n : Nat) (h : m.length = n) :
    padTo n m = m := by
  subst h
  apply List.ext_getElem
  · simp [padTo]
  · intro i h1 h2
    simp [padTo, List.getD_eq_getElem, List.getElem?_eq_getElem h2]

/-- The resolution pass exactly as the spec words it (§4.1): a single
left-to-right pass with a current-head variable initialized empty; a
sustain slot outputs the current head, a pitch slot becomes the new head
and is output, an empty slot clears the head and outputs empty.  Kept
separate from `resolveGo` so that the two can be compared. -/
def resolveSpecPass (head : Option String) : Melody → Melody
  | [] => []
  | t :: ts =>
    if t = some SUSTAIN_TOKEN then head :: resolveSpecPass head ts
    else
      match t with
      | some p => some p :: resolveSpecPass (some p) ts
      | none => none :: resolveSpecPass none ts

theorem resolveGo_eq_specPass (l : Melody) (h : Option String)
    (hw : ∀ t ∈ l, t ≠ some "") :
    resolveGo h l = resolveSpecPass h l := by
  induction l generalizing h with
  | nil => rfl
  | cons t ts ih =>
    have hw' : ∀ u ∈ ts, u ≠ some "" := fun u hu => hw u (List.mem_cons_of_mem _ hu)
    have hwt : t ≠ some "" := hw t (List.mem_cons_self _ _)
    simp only [resolveGo, resolveSpecPass]
    by_cases hS : t = some SUSTAIN_TOKEN
    · simp [hS, ih _ hw']
    · rw [if_neg hS, if_neg hS]
      cases t with
      | none => simp [jsTruthy, ih _ hw']
      | some s =>
        have hs : s ≠ "" := fun e => hwt (by rw [e])
        rw [if_pos (by simp [jsTruthy, hs])]
        simp [ih _ hw']

/-- The value of the `lastPitch` variable after processing a list of
slots, starting from `h`. -/
def headAfter (h : Option String) : Melody → Option String
  | [] => h
  | t :: ts =>
    if t = some SUSTAIN_TOKEN then headAfter h ts
    else if jsTruthy t then headAfter t ts
    else headAfter none ts

theorem resolveGo_append (h : Option String) (a b : Melody) :
    resolveGo h (a ++ b) = resolveGo h a ++ resolveGo (headAfter h a) b := by
  induction a generalizing h with
  | nil => rfl
  | cons t ts ih =>
    simp only [List.cons_append, resolveGo, headAfter]
    by_cases hS : t = some SUSTAIN_TOKEN
    · simp [hS, ih]
    · by_cases hT : jsTruthy t <;> simp [hS, hT, ih]

theorem resolveGo_all_sustain (h : Option String) (l : Melody)
    (hl : ∀ t ∈ l, t = some SUSTAIN_TOKEN) :
    resolveGo h l = List.replicate l.length h := by
  induction l with
  | nil => rfl
  | cons t ts ih =>
    have ht : t = some SUSTAIN_TOKEN := hl t (List.mem_cons_self _ _)
    have hts : ∀ u ∈ ts, u = some SUSTAIN_TOKEN :=
      fun u hu => hl u (List.mem_cons_of_mem _ hu)
    simp [resolveGo, ht, ih hts, List.replicate_succ]

theorem resolveGo_mem_shape (l : Melody) (h : Option String)
    (hh : h = none ∨ isPitchTok h = true) :
    ∀ t ∈ resolveGo h l, t = none ∨ isPitchTok t = true := by
  induction l generalizing h with
  | nil => simp [resolveGo]
  | cons t ts ih =>
    simp only [resolveGo]
    by_cases hS : t = some SUSTAIN_TOKEN
    · rw [if_pos hS]
      intro x hx
      rcases List.mem_cons.mp hx with rfl | hx
      · exact hh
      · exact ih h hh x hx
    · by_cases hT : jsTruthy t
      · rw [if_neg hS, if_pos hT]
        intro x hx
        have hpt : isPitchTok t = true := by
          match t, hT with
          | some s, hT =>
            simp only [jsTruthy, decide_eq_true_eq] at hT
            simp only [isPitchTok, Bool.and_eq_true, decide_eq_true_eq]
            exact ⟨hT, fun e => hS (by rw [e])⟩
        rcases List.mem_cons.mp hx with rfl | hx
        · exact Or.inr hpt
        · exact ih t (Or.inr hpt) x hx
      · rw [if_neg hS, if_neg hT]
        intro x hx
        rcases List.mem_cons.mp hx with rfl | hx
        · exact Or.inl rfl
        · exact ih none (Or.inl rfl) x hx

theorem writeSustainsAux_getD (nm : NoteMode) (prog : Progression)
    (pitch : String) (stop : Nat) :
    ∀ (fuel i : Nat), i + fuel = stop + 1 → ∀ (mel : Melody) (j : Nat),
    (writeSustainsAux nm prog pitch fuel i mel).getD j none =
    if i ≤ j ∧ j ≤ stop ∧ j < mel.length ∧
       (∀ k, i ≤ k → k ≤ j → isNoteAllowed nm prog pitch k = true)
    then some SUSTAIN_TOKEN else mel.getD j none := by
  intro fuel
  induction fuel with
  | zero =>
    intro i hfi mel j
    simp only [writeSustainsAux]
    rw [if_neg (by rintro ⟨h1, h2, _, _⟩; omega)]
  | succ n ih =>
    intro i hfi mel j
    have hi : i ≤ stop := by omega
    simp only [writeSustainsAux]
    by_cases ha : isNoteAllowed nm prog pitch i = true
    · rw [if_pos ha, ih (i + 1) (by omega), List.length_set]
      by_cases hj : j = i
      · subst hj
        rw [if_neg (by rintro ⟨h1, _⟩; omega), getD_set]
        by_cases hlen : j < mel.length
        · rw [if_pos ⟨rfl, hlen⟩,
            if_pos ⟨Nat.le_refl j, hi, hlen, fun k hk1 hk2 => by
              have hk : k = j := by omega
              subst hk; exact ha⟩]
        · rw [if_neg (fun hc => hlen hc.2),
            if_neg (by rintro ⟨_, _, h3, _⟩; exact hlen h3)]
      · by_cases hcond : i ≤ j ∧ j ≤ stop ∧ j < mel.length ∧
            ∀ k, i ≤ k → k ≤ j → isNoteAllowed nm prog pitch k = true
        · obtain ⟨h1, h2, h3, h4⟩ := hcond
          rw [if_pos ⟨by omega, h2, h3, fun k hk1 hk2 => h4 k (by omega) hk2⟩,
            if_pos ⟨h1, h2, h3, h4⟩]
        · have hLneg : ¬(i + 1 ≤ j ∧ j ≤ stop ∧ j < mel.length ∧
              ∀ k, i + 1 ≤ k → k ≤ j → isNoteAllowed nm prog pitch k = true) := by
            rintro ⟨h1, h2, h3, h4⟩
            apply hcond
            refine ⟨by omega, h2, h3, fun k hk1 hk2 => ?_⟩
            by_cases hki : k = i
            · subst hki; exact ha
            · exact h4 k (by omega) hk2
          rw [if_neg hLneg, if_neg hcond, getD_set,
            if_neg (by rintro ⟨h, _⟩; exact hj h.symm)]
    · rw [if_neg ha,
        if_neg (by rintro ⟨h1, h2, h3, h4⟩; exact ha (h4 i (Nat.le_refl i) h1))]

theorem writeSustains_getD (nm : NoteMode) (prog : Progression) (pitch : String)
    (i stop : Nat) (mel : Melody) (j : Nat) :
    (writeSustains nm prog pitch i stop mel).getD j none =
    if i ≤ j ∧ j ≤ stop ∧ j < mel.length ∧
       (∀ k, i ≤ k → k ≤ j → isNoteAllowed nm prog pitch k = true)
    then some SUSTAIN_TOKEN else mel.getD j none := by
  rw [writeSustains]
  by_cases hi : i ≤ stop
  · exact writeSustainsAux_getD nm prog pitch stop (stop + 1 - i) i (by omega) mel j
  · have h0 : stop + 1 - i = 0 := by omega
    rw [h0]
    simp only [writeSustainsAux]
    rw [if_neg (by rintro ⟨h1, h2, _, _⟩; omega)]

theorem clearSustainsAux_getD :
    ∀ (fuel i : Nat), i + fuel = TOTAL_STEPS → ∀ (mel : Melody) (j : Nat),
    (clearSustainsAux fuel i mel).getD j none =
    if i ≤ j ∧ j < TOTAL_STEPS ∧
       (∀ k, i ≤ k → k ≤ j → mel.getD k none = some SUSTAIN_TOKEN)
    then none else mel.getD j none := by
  intro fuel
  induction fuel with
  | zero =>
    intro i hfi mel j
    simp only [clearSustainsAux]
    rw [if_neg (by rintro ⟨h1, h2, _⟩; omega)]
  | succ n ih =>
    intro i hfi mel j
    have hi : i < TOTAL_STEPS := by omega
    simp only [clearSustainsAux]
    by_cases hS : mel.getD i none = some SUSTAIN_TOKEN
    · rw [if_pos hS, ih (i + 1) (by omega)]
      have hilen : i < mel.length := getD_some_lt_length hS
      have hset : ∀ k, i + 1 ≤ k → (mel.set i none).getD k none = mel.getD k none := by
        intro k hk
        rw [getD_set, if_neg (by rintro ⟨h, _⟩; omega)]
      by_cases hj : j = i
      · subst hj
        rw [if_neg (by rintro ⟨h1, _⟩; omega), getD_set, if_pos ⟨rfl, hilen⟩,
          if_pos ⟨Nat.le_refl j, hi, fun k hk1 hk2 => by
            have hk : k = j := by omega
            subst hk; exact hS⟩]
      · by_cases hcond : i ≤ j ∧ j < TOTAL_STEPS ∧
            ∀ k, i ≤ k → k ≤ j → mel.getD k none = some SUSTAIN_TOKEN
        · obtain ⟨h1, h2, h3⟩ := hcond
          rw [if_pos ⟨by omega, h2, fun k hk1 hk2 => by
              rw [hset k hk1]; exact h3 k (by omega) hk2⟩,
            if_pos ⟨h1, h2, h3⟩]
        · have hLneg : ¬(i + 1 ≤ j ∧ j < TOTAL_STEPS ∧
              ∀ k, i + 1 ≤ k → k ≤ j → (mel.set i none).getD k none = some SUSTAIN_TOKEN) := by
            rintro ⟨h1, h2, h3⟩
            apply hcond
            refine ⟨by omega, h2, fun k hk1 hk2 => ?_⟩
            by_cases hki : k = i
            · subst hki; exact hS
            · have hk := h3 k (by omega) hk2
              rwa [hset k (by omega)] at hk
          rw [if_neg hLneg, if_neg hcond, getD_set,
            if_neg (by rintro ⟨h, _⟩; exact hj h.symm)]
    · rw [if_neg hS,
        if_neg (by rintro ⟨h1, h2, h3⟩; exact hS (h3 i (Nat.le_refl i) h1))]

theorem clearSustains_getD (i : Nat) (mel : Melody) (j : Nat) :
    (clearSustains i mel).getD j none =
    if i ≤ j ∧ j < TOTAL_STEPS ∧
       (∀ k, i ≤ k → k ≤ j → mel.getD k none = some SUSTAIN_TOKEN)
    then none else mel.getD j none := by
  rw [clearSustains]
  by_cases hi : i < TOTAL_STEPS
  · exact clearSustainsAux_getD (TOTAL_STEPS - i) i (by omega) mel j
  · have h0 : TOTAL_STEPS - i = 0 := by omega
    rw [h0]
    simp only [clearSustainsAux]
    rw [if_neg (by rintro ⟨h1, h2, _⟩; omega)]


theorem countSustains_eq_takeWhile (mel : Melody) (i : Nat) :
    countSustains mel i =
      ((mel.drop i).takeWhile (fun t => t = some SUSTAIN_TOKEN)).length := by
  suffices H : ∀ (fuel i : Nat), mel.length - i ≤ fuel →
      countSustains mel i =
        ((mel.drop i).takeWhile (fun t => t = some SUSTAIN_TOKEN)).length from
    H (mel.length - i) i (Nat.le_refl _)
  intro fuel
  induction fuel with
  | zero =>
    intro i hf
    have hi : ¬ i < mel.length := by omega
    rw [countSustains, if_neg hi, List.drop_eq_nil_of_le (by omega)]
    rfl
  | succ n ih =>
    intro i hf
    by_cases hi : i < mel.length
    · rw [countSustains, if_pos hi, List.drop_eq_getElem_cons hi, List.takeWhile_cons]
      have hgd : mel.getD i none = mel[i] := List.getD_eq_getElem mel none hi
      by_cases hS : mel.getD i none = some SUSTAIN_TOKEN
      · rw [if_pos hS, ih (i + 1) (by omega)]
        have hgi : mel[i] = some SUSTAIN_TOKEN := by rw [← hgd]; exact hS
        simp [hgi]
      · rw [if_neg hS]
        have hgi : ¬(mel[i] = some SUSTAIN_TOKEN) := by rw [← hgd]; exact hS
        simp [hgi]
    · rw [countSustains, if_neg hi, List.drop_eq_nil_of_le (by omega)]
      rfl

theorem handleGridPointerMove_fst (nm : NoteMode) (prog : Progression)
    (d : DragState) (mel : Melody) (s : Nat) (hA : d.isActive = true) :
    (handleGridPointerMove nm prog (some d) mel s).1 =
      some { d with hasMoved := true } := by
  simp only [handleGridPointerMove, hA]
  by_cases hs : s < d.startStep <;> simp [hs]

/-! ### Claims -/

/-- C1: `resolvedMelody` equals the spec's single left-to-right pass with a
current-head variable (on any length-`TOTAL_STEPS` timeline whose slots are
`null` or nonempty strings); every concrete-pitch slot is preserved in the
resolved timeline; and the 8-step Scenario A resolves as stated. -/
theorem resolve_single_pass_correct :
    (∀ m : Melody, m.length = TOTAL_STEPS → (∀ t ∈ m, t ≠ some "") →
      resolvedMelody m = resolveSpecPass none m) ∧
    (∀ (m : Melody) (i : Nat), m.length = TOTAL_STEPS →
      isPitchTok (m.getD i none) = true →
      (resolvedMelody m).getD i none = m.getD i none) ∧
    resolveSteps 8 [none, none, some "C4", some "HOLD", some "HOLD", none, none, none] =
      [none, none, some "C4", some "C4", some "C4", none, none, none] := by
  refine ⟨?_, ?_, ?_⟩
  · intro m hlen hw
    rw [resolvedMelody, resolveSteps, padTo_eq_self m _ hlen]
    exact resolveGo_eq_specPass m none hw
  · intro m i hlen hp
    rw [resolvedMelody, resolveSteps, padTo_eq_self m _ hlen]
    exact resolveGo_getD_pitch m none i hp
  · rfl

/-- Witness for C1 at the concrete 32-step timeline
`[null, null, "C4", "HOLD", "HOLD", null, ...]`. -/
theorem resolve_single_pass_correct_witness :
    ([none, none, some "C4", some "HOLD", some "HOLD"] ++
        List.replicate 27 (none : Option String)).length = TOTAL_STEPS ∧
    (∀ t ∈ ([none, none, some "C4", some "HOLD", some "HOLD"] ++
        List.replicate 27 (none : Option String)), t ≠ some "") ∧
    isPitchTok (([none, none, some "C4", some "HOLD", some "HOLD"] ++
        List.replicate 27 (none : Option String)).getD 2 none) = true ∧
    resolvedMelody ([none, none, some "C4", some "HOLD", some "HOLD"] ++
        List.replicate 27 (none : Option String)) =
      resolveSpecPass none ([none, none, some "C4", some "HOLD", some "HOLD"] ++
        List.replicate 27 (none : Option String)) ∧
    (resolvedMelody ([none, none, some "C4", some "HOLD", some "HOLD"] ++
        List.replicate 27 (none : Option String))).getD 2 none =
      ([none, none, some "C4", some "HOLD", some "HOLD"] ++
        List.replicate 27 (none : Option String)).getD 2 none :=
  ⟨by decide, by decide, by decide,
    resolve_single_pass_correct.1 _ (by decide) (by decide),
    resolve_single_pass_correct.2.1 _ 2 (by decide) (by decide)⟩

/-- C5: `isNoteAllowed` is always true in chromatic mode; in scale mode it
tests digit-stripped membership in the diatonic set {C,D,E,F,G,A,B}; in
chord mode it divides by `STEPS_PER_BAR`, returns false when the
progression entry is absent, and otherwise tests membership in that
chord's notes; step 10 of a 4-bar progression uses bar index 1. -/
theorem isNoteAllowed_spec :
    (∀ (prog : Progression) (p : String) (s : Nat),
      isNoteAllowed .chromatic prog p s = true) ∧
    (∀ (prog : Progression) (p : String) (s : Nat),
      isNoteAllowed .scale prog p s =
        (["C", "D", "E", "F", "G", "A", "B"] : List String).contains (stripDigits p)) ∧
    (∀ (prog : Progression) (p : String) (s : Nat),
      isNoteAllowed .chord prog p s =
        match prog[s / STEPS_PER_BAR]? with
        | none => false
        | some c => c.notes.contains (stripDigits p)) ∧
    (∀ (prog : Progression) (p : String) (s : Nat),
      prog.length ≤ s / STEPS_PER_BAR → isNoteAllowed .chord prog p s = false) ∧
    (∀ (prog : Progression) (c : Chord) (p : String),
      prog.length = 4 → prog[1]? = some c →
      isNoteAllowed .chord prog p 10 = c.notes.contains (stripDigits p)) := by
  refine ⟨fun prog p s => rfl, fun prog p s => rfl, fun prog p s => rfl, ?_, ?_⟩
  · intro prog p s h
    show (match prog[s / STEPS_PER_BAR]? with
      | none => false
      | some c => c.notes.contains (stripDigits p)) = false
    rw [List.getElem?_eq_none h]
  · intro prog c p hlen hc
    show (match prog[10 / STEPS_PER_BAR]? with
      | none => false
      | some c => c.notes.contains (stripDigits p)) = c.notes.contains (stripDigits p)
    have h1 : (10 : Nat) / STEPS_PER_BAR = 1 := by decide
    rw [h1, hc]

/-- Witness for C5 at the default 4-chord progression shape and step 10. -/
theorem isNoteAllowed_spec_witness :
    ([⟨["C", "E", "G"], "C"⟩, ⟨["A", "C", "E"], "A"⟩, ⟨["F", "A", "C"], "F"⟩,
        ⟨["G", "B", "D"], "G"⟩] : Progression).length = 4 ∧
    ([⟨["C", "E", "G"], "C"⟩, ⟨["A", "C", "E"], "A"⟩, ⟨["F", "A", "C"], "F"⟩,
        ⟨["G", "B", "D"], "G"⟩] : Progression)[1]? = some ⟨["A", "C", "E"], "A"⟩ ∧
    ([] : Progression).length ≤ 10 / STEPS_PER_BAR ∧
    isNoteAllowed .chord [⟨["C", "E", "G"], "C"⟩, ⟨["A", "C", "E"], "A"⟩,
        ⟨["F", "A", "C"], "F"⟩, ⟨["G", "B", "D"], "G"⟩] "A4" 10 =
      (["A", "C", "E"] : List String).contains (stripDigits "A4") ∧
    isNoteAllowed .chord [] "A4" 10 = false :=
  ⟨by decide, by decide, by decide,
    isNoteAllowed_spec.2.2.2.2 _ ⟨["A", "C", "E"], "A"⟩ "A4" (by decide) (by decide),
    isNoteAllowed_spec.2.2.2.1 [] "A4" 10 (by decide)⟩

/-- C6: a pointer-down on a disallowed (pitch, step) combination starts no
gesture and leaves the timeline unchanged; in scale mode the sharp pitch
"C#4" is disallowed at every step, so gesturing on it never mutates the
timeline (and with no drag started, pointer-moves are no-ops too). -/
theorem pointerDown_disallowed_noop :
    (∀ (nm : NoteMode) (prog : Progression) (ds0 : Option DragState)
        (mel : Melody) (s : Nat) (p : String),
      isNoteAllowed nm prog p s = false →
      handleGridPointerDown nm prog ds0 mel s p = ⟨ds0, mel, none⟩) ∧
    (∀ (prog : Progression) (ds0 : Option DragState) (mel : Melody) (s : Nat),
      handleGridPointerDown .scale prog ds0 mel s "C#4" = ⟨ds0, mel, none⟩) ∧
    (∀ (nm : NoteMode) (prog : Progression) (mel : Melody) (s : Nat),
      handleGridPointerMove nm prog none mel s = (none, mel)) := by
  refine ⟨?_, ?_, fun nm prog mel s => rfl⟩
  · intro nm prog ds0 mel s p h
    simp [handleGridPointerDown, h]
  · intro prog ds0 mel s
    have h : isNoteAllowed .scale prog "C#4" s = false := by
      have he : isNoteAllowed .scale prog "C#4" s =
          SCALE_NOTES.contains (stripDigits "C#4") := rfl
      rw [he]; decide
    simp [handleGridPointerDown, h]

/-- Witness for C6: a concrete disallowed pointer-down (scale mode, "C#4",
step 0, empty timeline) changes nothing. -/
theorem pointerDown_disallowed_noop_witness :
    isNoteAllowed .scale [] "C#4" 0 = false ∧
    handleGridPointerDown .scale [] none (List.replicate 32 (none : Option String))
        0 "C#4" =
      ⟨none, List.replicate 32 (none : Option String), none⟩ :=
  ⟨by decide,
    pointerDown_disallowed_noop.1 .scale [] none _ 0 "C#4" (by decide)⟩

/-- C7: the scheduler tick triggers a note exactly at concrete-pitch slots,
with duration `1 + (number of consecutive sustain markers immediately
following)` subdivisions; sustain and empty slots trigger nothing. -/
theorem tick_duration_correct :
    (∀ (mel : Melody) (i : Nat) (p : String),
      mel.getD i none = some p → p ≠ "" → p ≠ SUSTAIN_TOKEN →
      tickNote mel i =
        some (p, 1 +
          ((mel.drop (i + 1)).takeWhile (fun t => t = some SUSTAIN_TOKEN)).length)) ∧
    (∀ (mel : Melody) (i : Nat),
      mel.getD i none = some SUSTAIN_TOKEN ∨ mel.getD i none = none →
      tickNote mel i = none) := by
  constructor
  · intro mel i p hp hne hns
    simp only [tickNote, hp]
    rw [if_pos (by simp [hne, hns]), countSustains_eq_takeWhile]
  · intro mel i h
    rcases h with h | h
    · simp only [tickNote, h]
      simp [SUSTAIN_TOKEN]
    · simp only [tickNote, h]

/-- Witness for C7: a head at step 0 followed by one sustain sounds for 2
subdivisions; the sustain and empty slots trigger nothing. -/
theorem tick_duration_correct_witness :
    ([some "C4", some "HOLD", none] : Melody).getD 0 none = some "C4" ∧
    ("C4" : String) ≠ "" ∧ ("C4" : String) ≠ SUSTAIN_TOKEN ∧
    tickNote [some "C4", some "HOLD", none] 0 =
      some ("C4", 1 + ((([some "C4", some "HOLD", none] : Melody).drop 1).takeWhile
        (fun t => t = some SUSTAIN_TOKEN)).length) ∧
    tickNote [some "C4", some "HOLD", none] 1 = none :=
  ⟨by decide, by decide, by decide,
    tick_duration_correct.1 _ 0 "C4" (by decide) (by decide) (by decide),
    tick_duration_correct.2 _ 1 (Or.inl (by decide))⟩

/-- C9: while a drag is active, any pointer-move that resolves to a valid
step sets `hasMoved := true`, even at the start step itself; hence a
subsequent pointer-up of a resize gesture performs no deletion. -/
theorem move_sets_hasMoved_unconditionally :
    (∀ (nm : NoteMode) (prog : Progression) (d : DragState) (mel : Melody) (s : Nat),
      d.isActive = true →
      (handleGridPointerMove nm prog (some d) mel s).1 =
        some { d with hasMoved := true }) ∧
    (∀ (nm : NoteMode) (prog : Progression) (d : DragState) (mel : Melody),
      d.isActive = true → d.mode = .resize →
      (handleGridPointerUp
          (handleGridPointerMove nm prog (some d) mel d.startStep).1
          (handleGridPointerMove nm prog (some d) mel d.startStep).2).2 =
        (handleGridPointerMove nm prog (some d) mel d.startStep).2) := by
  constructor
  · intro nm prog d mel s hA
    exact handleGridPointerMove_fst nm prog d mel s hA
  · intro nm prog d mel hA hR
    rw [handleGridPointerMove_fst nm prog d mel d.startStep hA]
    simp [handleGridPointerUp]

/-- Witness for C9: an in-place wiggle (move resolving to the start step)
on a resize gesture cancels delete-by-tap. -/
theorem move_sets_hasMoved_unconditionally_witness :
    (⟨true, 2, "C4", .resize, false⟩ : DragState).isActive = true ∧
    (⟨true, 2, "C4", .resize, false⟩ : DragState).mode = .resize ∧
    (handleGridPointerMove .chromatic [] (some ⟨true, 2, "C4", .resize, false⟩)
        ([none, none, some "C4"] ++ List.replicate 29 (none : Option String)) 2).1 =
      some ⟨true, 2, "C4", .resize, true⟩ ∧
    (handleGridPointerUp
        (handleGridPointerMove .chromatic [] (some ⟨true, 2, "C4", .resize, false⟩)
          ([none, none, some "C4"] ++ List.replicate 29 (none : Option String)) 2).1
        (handleGridPointerMove .chromatic [] (some ⟨true, 2, "C4", .resize, false⟩)
          ([none, none, some "C4"] ++ List.replicate 29 (none : Option String)) 2).2).2 =
      (handleGridPointerMove .chromatic [] (some ⟨true, 2, "C4", .resize, false⟩)
        ([none, none, some "C4"] ++ List.replicate 29 (none : Option String)) 2).2 :=
  ⟨rfl, rfl,
    move_sets_hasMoved_unconditionally.1 .chromatic [] _ _ 2 rfl,
    move_sets_hasMoved_unconditionally.2 .chromatic [] _ _ rfl rfl⟩

/-- C2: a pointer-move of an active drag to step `s` ignores backward
moves (`s < startStep`); otherwise the emitted timeline holds the pitch at
`startStep`, sustain markers at the indices of `[startStep+1, s]` whose
whole gap is allowed (extension stops at the first disallowed index),
empties at the indices after `s` whose whole gap back to `s+1` held
leftover sustain markers (clearing stops at the first non-sustain slot),
and every other slot unchanged; Scenario C (grab at step 4, shrink to
step 3) behaves as stated. -/
theorem pointerMove_rebuild_correct :
    (∀ (nm : NoteMode) (prog : Progression) (d : DragState) (mel : Melody) (s : Nat),
      d.isActive = true → s < d.startStep →
      (handleGridPointerMove nm prog (some d) mel s).2 = mel) ∧
    (∀ (nm : NoteMode) (prog : Progression) (d : DragState) (mel : Melody) (s j : Nat),
      d.isActive = true → d.startStep ≤ s → s < TOTAL_STEPS →
      mel.length = TOTAL_STEPS →
      (handleGridPointerMove nm prog (some d) mel s).2.getD j none =
        if j = d.startStep then some d.pitch
        else if d.startStep + 1 ≤ j ∧ j ≤ s ∧
            (∀ k, d.startStep + 1 ≤ k → k ≤ j → isNoteAllowed nm prog d.pitch k = true)
          then some SUSTAIN_TOKEN
        else if s + 1 ≤ j ∧ j < TOTAL_STEPS ∧
            (∀ k, s + 1 ≤ k → k ≤ j → mel.getD k none = some SUSTAIN_TOKEN)
          then none
        else mel.getD j none) ∧
    ((handleGridPointerDown .chromatic [] none
        ([none, none, some "E4", some "HOLD", some "HOLD"] ++
          List.replicate 27 (none : Option String)) 4 "E4").dragState =
      some ⟨true, 2, "E4", .resize, false⟩ ∧
    (handleGridPointerMove .chromatic [] (some ⟨true, 2, "E4", .resize, false⟩)
        ([none, none, some "E4", some "HOLD", some "HOLD"] ++
          List.replicate 27 (none : Option String)) 3).2 =
      ([none, none, some "E4", some "HOLD"] ++
        List.replicate 28 (none : Option String))) := by
  refine ⟨?_, ?_, by decide, by decide⟩
  · intro nm prog d mel s hA hs
    simp only [handleGridPointerMove, hA]
    rw [if_pos trivial, if_pos hs]
  · intro nm prog d mel s j hA hs hsN hlen
    have hmove : (handleGridPointerMove nm prog (some d) mel s).2 =
        clearSustains (s + 1) (writeSustains nm prog d.pitch (d.startStep + 1) s
          (mel.set d.startStep (some d.pitch))) := by
      simp only [handleGridPointerMove, hA]
      rw [if_pos trivial, if_neg (by omega)]
    rw [hmove, clearSustains_getD]
    have hm2 : ∀ k,
        (writeSustains nm prog d.pitch (d.startStep + 1) s
          (mel.set d.startStep (some d.pitch))).getD k none =
        if k = d.startStep then some d.pitch
        else if d.startStep + 1 ≤ k ∧ k ≤ s ∧
            (∀ l, d.startStep + 1 ≤ l → l ≤ k → isNoteAllowed nm prog d.pitch l = true)
          then some SUSTAIN_TOKEN
        else mel.getD k none := by
      intro k
      rw [writeSustains_getD, List.length_set, hlen]
      by_cases hk : k = d.startStep
      · subst hk
        rw [if_neg (by rintro ⟨h1, _⟩; omega), if_pos rfl, getD_set,
          if_pos ⟨rfl, by omega⟩]
      · rw [if_neg hk]
        by_cases hsus : d.startStep + 1 ≤ k ∧ k ≤ s ∧
            ∀ l, d.startStep + 1 ≤ l → l ≤ k → isNoteAllowed nm prog d.pitch l = true
        · obtain ⟨h1, h2, h3⟩ := hsus
          rw [if_pos ⟨h1, h2, by omega, h3⟩, if_pos ⟨h1, h2, h3⟩]
        · have hneg : ¬(d.startStep + 1 ≤ k ∧ k ≤ s ∧ k < TOTAL_STEPS ∧
              ∀ l, d.startStep + 1 ≤ l → l ≤ k → isNoteAllowed nm prog d.pitch l = true) := by
            rintro ⟨h1, h2, h3, h4⟩
            exact hsus ⟨h1, h2, h4⟩
          rw [if_neg hneg, if_neg hsus, getD_set,
            if_neg (by rintro ⟨h, _⟩; exact hk h.symm)]
    have hm2high : ∀ k, s + 1 ≤ k →
        (writeSustains nm prog d.pitch (d.startStep + 1) s
          (mel.set d.startStep (some d.pitch))).getD k none = mel.getD k none := by
      intro k hk
      rw [hm2 k, if_neg (by omega), if_neg (by rintro ⟨_, h2, _⟩; omega)]
    by_cases hclr : s + 1 ≤ j ∧ j < TOTAL_STEPS ∧
        ∀ k, s + 1 ≤ k → k ≤ j → mel.getD k none = some SUSTAIN_TOKEN
    · obtain ⟨h1, h2, h3⟩ := hclr
      rw [if_pos ⟨h1, h2, fun k hk1 hk2 => by
          rw [hm2high k hk1]; exact h3 k hk1 hk2⟩,
        if_neg (by omega), if_neg (by rintro ⟨_, h, _⟩; omega),
        if_pos ⟨h1, h2, h3⟩]
    · rw [if_neg (fun hc => hclr ⟨hc.1, hc.2.1, fun k hk1 hk2 => by
        rw [← hm2high k hk1]; exact hc.2.2 k hk1 hk2⟩), hm2 j]
      by_cases hj : j = d.startStep
      · rw [if_pos hj, if_pos hj]
      · rw [if_neg hj, if_neg hj]
        by_cases hsus : d.startStep + 1 ≤ j ∧ j ≤ s ∧
            ∀ k, d.startStep + 1 ≤ k → k ≤ j → isNoteAllowed nm prog d.pitch k = true
        · rw [if_pos hsus, if_pos hsus]
        · rw [if_neg hsus, if_neg hsus, if_neg hclr]

/-- Witness for C2: the shrink move of Scenario C clears the leftover
sustain marker at index 4 and keeps indices 2 and 3. -/
theorem pointerMove_rebuild_correct_witness :
    (⟨true, 2, "E4", .resize, false⟩ : DragState).isActive = true ∧
    (2 : Nat) ≤ 3 ∧ (3 : Nat) < TOTAL_STEPS ∧
    ([none, none, some "E4", some "HOLD", some "HOLD"] ++
        List.replicate 27 (none : Option String)).length = TOTAL_STEPS ∧
    (handleGridPointerMove .chromatic [] (some ⟨true, 2, "E4", .resize, false⟩)
        ([none, none, some "E4", some "HOLD", some "HOLD"] ++
          List.replicate 27 (none : Option String)) 3).2.getD 4 none = none ∧
    (handleGridPointerMove .chromatic [] (some ⟨true, 2, "E4", .resize, false⟩)
        ([none, none, some "E4", some "HOLD", some "HOLD"] ++
          List.replicate 27 (none : Option String)) 3).2.getD 2 none = some "E4" :=
  ⟨rfl, by decide, by decide, by decide,
    (pointerMove_rebuild_correct.2.1 .chromatic [] ⟨true, 2, "E4", .resize, false⟩
      ([none, none, some "E4", some "HOLD", some "HOLD"] ++
        List.replicate 27 (none : Option String)) 3 4 rfl (by decide) (by decide)
      (by decide)).trans (by
        rw [if_neg (by decide), if_neg (by rintro ⟨_, h, _⟩; omega),
          if_pos ⟨by decide, by decide, fun k hk1 hk2 => by
            have hk : k = 4 := by omega
            subst hk; decide⟩]),
    (pointerMove_rebuild_correct.2.1 .chromatic [] ⟨true, 2, "E4", .resize, false⟩
      ([none, none, some "E4", some "HOLD", some "HOLD"] ++
        List.replicate 27 (none : Option String)) 3 2 rfl (by decide) (by decide)
      (by decide)).trans (by rw [if_pos rfl])⟩

/-- C3 counterexample: in the create case the code does not clear forward
sustain markers orphaned by the overwrite.  Pointer-down with "E4" at
step 1 over `[null, "C4", "HOLD", "HOLD", ...]` is a create (the resolved
pitch at step 1 is "C4", not "E4") yet the emitted timeline still holds
the sustain marker at index 2, where the claim requires empty. -/
theorem pointerDown_create_forward_clear_counterexample :
    isNoteAllowed .chromatic [] "E4" 1 = true ∧
    (resolvedMelody ([none, some "C4", some "HOLD", some "HOLD"] ++
        List.replicate 28 (none : Option String))).getD 1 none = some "C4" ∧
    (handleGridPointerDown .chromatic [] none
        ([none, some "C4", some "HOLD", some "HOLD"] ++
          List.replicate 28 (none : Option String)) 1 "E4").melody.getD 2 none =
      some SUSTAIN_TOKEN := by
  refine ⟨by decide, by decide, by decide⟩

/-- C3 (amended): on a create pointer-down at an allowed (s, p) whose
resolved pitch differs from p, the emitted timeline is the input with p
written at index s and every other slot unchanged (forward sustain
markers are left in place, now extending the new pitch), the gesture
enters Create mode at s, and an audible preview of p is triggered. -/
theorem pointerDown_create_writes_head_only :
    ∀ (nm : NoteMode) (prog : Progression) (ds0 : Option DragState)
      (mel : Melody) (s : Nat) (p : String),
      isNoteAllowed nm prog p s = true →
      (resolvedMelody mel).getD s none ≠ some p →
      handleGridPointerDown nm prog ds0 mel s p =
        ⟨some ⟨true, s, p, .create, false⟩, mel.set s (some p), some p⟩ := by
  intro nm prog ds0 mel s p hallow hres
  simp only [handleGridPointerDown]
  rw [if_pos hallow, if_neg hres]

/-- Witness for C3's amended theorem at the counterexample input. -/
theorem pointerDown_create_writes_head_only_witness :
    isNoteAllowed .chromatic [] "E4" 1 = true ∧
    (resolvedMelody ([none, some "C4", some "HOLD", some "HOLD"] ++
        List.replicate 28 (none : Option String))).getD 1 none ≠ some "E4" ∧
    handleGridPointerDown .chromatic [] none
        ([none, some "C4", some "HOLD", some "HOLD"] ++
          List.replicate 28 (none : Option String)) 1 "E4" =
      ⟨some ⟨true, 1, "E4", .create, false⟩,
        ([none, some "C4", some "HOLD", some "HOLD"] ++
          List.replicate 28 (none : Option String)).set 1 (some "E4"), some "E4"⟩ :=
  ⟨by decide, by decide,
    pointerDown_create_writes_head_only .chromatic [] none _ 1 "E4"
      (by decide) (by decide)⟩

/-- C4: pointer-up of a Resize gesture with no movement clears the head
slot and the consecutive sustain markers immediately following it; every
other active case leaves the timeline alone; the gesture state always
returns to Idle; and Scenario D (tap deletes a one-step note) holds. -/
theorem pointerUp_tap_delete :
    (∀ (d : DragState) (mel : Melody) (j : Nat),
      d.mode = .resize → d.hasMoved = false → mel.length = TOTAL_STEPS →
      d.startStep < TOTAL_STEPS →
      (handleGridPointerUp (some d) mel).2.getD j none =
        if j = d.startStep then none
        else if d.startStep + 1 ≤ j ∧ j < TOTAL_STEPS ∧
            (∀ k, d.startStep + 1 ≤ k → k ≤ j → mel.getD k none = some SUSTAIN_TOKEN)
          then none
        else mel.getD j none) ∧
    (∀ (d : DragState) (mel : Melody),
      d.mode = .create ∨ d.hasMoved = true →
      (handleGridPointerUp (some d) mel).2 = mel) ∧
    (∀ (ds : Option DragState) (mel : Melody),
      (handleGridPointerUp ds mel).1 = none) ∧
    (handleGridPointerUp
        (handleGridPointerDown .chromatic [] none
          ([none, none, some "C4"] ++ List.replicate 29 (none : Option String))
          2 "C4").dragState
        ([none, none, some "C4"] ++ List.replicate 29 (none : Option String))).2 =
      List.replicate 32 (none : Option String) := by
  refine ⟨?_, ?_, ?_, by decide⟩
  · intro d mel j hR hM hlen hsN
    have hup : (handleGridPointerUp (some d) mel).2 =
        clearSustains (d.startStep + 1) (mel.set d.startStep none) := by
      simp only [handleGridPointerUp]
      rw [if_pos (by rw [hR, hM]; rfl)]
    rw [hup, clearSustains_getD]
    have hset : ∀ k, d.startStep + 1 ≤ k →
        (mel.set d.startStep none).getD k none = mel.getD k none := by
      intro k hk
      rw [getD_set, if_neg (by rintro ⟨h, _⟩; omega)]
    by_cases hj : j = d.startStep
    · subst hj
      rw [if_neg (by rintro ⟨h1, _⟩; omega), if_pos rfl, getD_set,
        if_pos ⟨rfl, by omega⟩]
    · rw [if_neg hj]
      by_cases hclr : d.startStep + 1 ≤ j ∧ j < TOTAL_STEPS ∧
          ∀ k, d.startStep + 1 ≤ k → k ≤ j → mel.getD k none = some SUSTAIN_TOKEN
      · obtain ⟨h1, h2, h3⟩ := hclr
        rw [if_pos ⟨h1, h2, fun k hk1 hk2 => by
            rw [hset k hk1]; exact h3 k hk1 hk2⟩,
          if_pos ⟨h1, h2, h3⟩]
      · rw [if_neg (fun hc => hclr ⟨hc.1, hc.2.1, fun k hk1 hk2 => by
            rw [← hset k hk1]; exact hc.2.2 k hk1 hk2⟩),
          if_neg hclr, getD_set, if_neg (by rintro ⟨h, _⟩; exact hj h.symm)]
  · intro d mel h
    simp only [handleGridPointerUp]
    rcases h with h | h
    · rw [if_neg (by rw [h]; simp)]
    · rw [if_neg (by rw [h]; simp)]
  · intro ds mel
    match ds with
    | none => rfl
    | some d =>
      simp only [handleGridPointerUp]
      by_cases h : (d.mode = DragMode.resize && !d.hasMoved) = true
      · rw [if_pos h]
      · rw [if_neg h]

/-- Witness for C4: tap-delete on a note of length 2 clears the head and
its sustain marker. -/
theorem pointerUp_tap_delete_witness :
    (⟨true, 2, "C4", .resize, false⟩ : DragState).mode = .resize ∧
    (⟨true, 2, "C4", .resize, false⟩ : DragState).hasMoved = false ∧
    ([none, none, some "C4", some "HOLD"] ++
        List.replicate 28 (none : Option String)).length = TOTAL_STEPS ∧
    (2 : Nat) < TOTAL_STEPS ∧
    (handleGridPointerUp (some ⟨true, 2, "C4", .resize, false⟩)
        ([none, none, some "C4", some "HOLD"] ++
          List.replicate 28 (none : Option String))).2.getD 3 none = none ∧
    (handleGridPointerUp (some ⟨true, 2, "C4", .resize, false⟩)
        ([none, none, some "C4", some "HOLD"] ++
          List.replicate 28 (none : Option String))).2.getD 2 none = none :=
  ⟨rfl, rfl, by decide, by decide,
    (pointerUp_tap_delete.1 ⟨true, 2, "C4", .resize, false⟩
      ([none, none, some "C4", some "HOLD"] ++
        List.replicate 28 (none : Option String)) 3 rfl rfl (by decide)
      (by decide)).trans (by
        rw [if_neg (by decide), if_pos ⟨by decide, by decide, fun k hk1 hk2 => by
          have hk1' : (3 : Nat) ≤ k := hk1
          have hk : k = 3 := by omega
          subst hk; decide⟩]),
    (pointerUp_tap_delete.1 ⟨true, 2, "C4", .resize, false⟩
      ([none, none, some "C4", some "HOLD"] ++
        List.replicate 28 (none : Option String)) 2 rfl rfl (by decide)
      (by decide)).trans (by rw [if_pos rfl])⟩

/-- C10: the resolved timeline never contains the sustain token — every
entry is empty or a concrete pitch — and a run of sustain markers with no
head since the last break (at the start of the timeline, or right after
an empty slot) resolves to empty at each of its indices. -/
theorem resolve_no_sustain_in_output :
    (∀ (m : Melody) (t : Option String), t ∈ resolvedMelody m →
      t ≠ some SUSTAIN_TOKEN) ∧
    (∀ (m : Melody) (t : Option String), t ∈ resolvedMelody m →
      t = none ∨ isPitchTok t = true) ∧
    (∀ (holds rest : Melody) (j : Nat),
      (holds ++ rest).length = TOTAL_STEPS →
      (∀ t ∈ holds, t = some SUSTAIN_TOKEN) → j < holds.length →
      (resolvedMelody (holds ++ rest)).getD j none = none) ∧
    (∀ (pre holds rest : Melody) (j : Nat),
      (pre ++ none :: (holds ++ rest)).length = TOTAL_STEPS →
      (∀ t ∈ holds, t = some SUSTAIN_TOKEN) → j < holds.length →
      (resolvedMelody (pre ++ none :: (holds ++ rest))).getD
        (pre.length + 1 + j) none = none) := by
  have hshape : ∀ (m : Melody) (t : Option String), t ∈ resolvedMelody m →
      t = none ∨ isPitchTok t = true := by
    intro m t ht
    exact resolveGo_mem_shape (padTo TOTAL_STEPS m) none (Or.inl rfl) t ht
  refine ⟨?_, hshape, ?_, ?_⟩
  · intro m t ht
    rcases hshape m t ht with rfl | hp
    · exact fun h => Option.noConfusion h
    · intro h
      subst h
      simp [isPitchTok, SUSTAIN_TOKEN] at hp
  · intro holds rest j hlen hall hj
    rw [resolvedMelody, resolveSteps, padTo_eq_self _ _ hlen, resolveGo_append,
      resolveGo_all_sustain none holds hall]
    rw [List.getD_append _ _ _ _ (by simpa using hj),
      List.getD_eq_getElem _ _ (by simpa using hj), List.getElem_replicate]
  · intro pre holds rest j hlen hall hj
    rw [resolvedMelody, resolveSteps, padTo_eq_self _ _ hlen, resolveGo_append]
    have hcons : resolveGo (headAfter none pre) (none :: (holds ++ rest)) =
        none :: resolveGo none (holds ++ rest) := by
      simp only [resolveGo]
      rw [if_neg (fun h => Option.noConfusion h), if_neg (by simp [jsTruthy])]
    rw [hcons, resolveGo_append, resolveGo_all_sustain none holds hall,
      List.getD_append_right _ _ _ _ (by rw [length_resolveGo]; omega)]
    have hidx : pre.length + 1 + j - (resolveGo none pre).length = j + 1 := by
      rw [length_resolveGo]; omega
    rw [hidx, List.getD_cons_succ,
      List.getD_append _ _ _ _ (by simpa using hj),
      List.getD_eq_getElem _ _ (by simpa using hj), List.getElem_replicate]

/-- Witness for C10: a headless leading sustain run resolves to empty, and
a sustain run orphaned behind an empty slot resolves to empty. -/
theorem resolve_no_sustain_in_output_witness :
    (([some "HOLD", some "HOLD"] ++ List.replicate 30 (none : Option String)).length =
      TOTAL_STEPS) ∧
    (∀ t ∈ ([some "HOLD", some "HOLD"] : Melody), t = some SUSTAIN_TOKEN) ∧
    (0 : Nat) < ([some "HOLD", some "HOLD"] : Melody).length ∧
    (resolvedMelody ([some "HOLD", some "HOLD"] ++
      List.replicate 30 (none : Option String))).getD 0 none = none ∧
    (([some "C4"] ++ none :: (([some "HOLD"] : Melody) ++
      List.replicate 29 (none : Option String))).length = TOTAL_STEPS) ∧
    (resolvedMelody ([some "C4"] ++ none :: (([some "HOLD"] : Melody) ++
      List.replicate 29 (none : Option String)))).getD
        (([some "C4"] : Melody).length + 1 + 0) none = none :=
  ⟨by decide, by decide, by decide,
    resolve_no_sustain_in_output.2.2.1 [some "HOLD", some "HOLD"]
      (List.replicate 30 none) 0 (by decide) (by decide) (by decide),
    by decide,
    resolve_no_sustain_in_output.2.2.2 [some "C4"] [some "HOLD"]
      (List.replicate 29 none) 0 (by decide) (by decide) (by decide)⟩

/-! ### Playback transport (C8) -/

/-- The states of the external transport clock (`Tone.Transport`). -/
inductive TransportState where
  | started
  | paused
  | stopped
deriving DecidableEq, Repr

/-- The playback state observable through the audio service: the external
transport's state, the service's `currentStepIndex`, and whether melody
and chord voices are sounding. -/
structure AudioState where
  transport : TransportState
  currentStepIndex : Nat
  melodyVoices : Bool
  chordVoices : Bool
deriving DecidableEq, Repr

/-- `AudioService.releaseAll`: silences chord and melody voices. -/
def releaseAll (st : AudioState) : AudioState :=
  { st with melodyVoices := false, chordVoices := false }

/-- Modelled from the spec: the external `Tone.Transport` state changes
(`Transport.start` / `pause` / `stop`) are not repository code; per the
scheduler contract (§4.3) each simply moves the transport to the matching
state, with no effect when it is already there. -/
def transportSet (t : TransportState) (st : AudioState) : AudioState :=
  { st with transport := t }

/-- The transport part of `AudioService.play`: starts the transport. -/
def play (st : AudioState) : AudioState :=
  transportSet .started st

/-- `AudioService.pause`: pauses the transport and releases all voices
(`currentStepIndex` is untouched). -/
def pause (st : AudioState) : AudioState :=
  releaseAll (transportSet .paused st)

/-- `AudioService.stop`: stops the transport, resets `currentStepIndex`
to 0 and releases all voices. -/
def stop (st : AudioState) : AudioState :=
  releaseAll { transportSet .stopped st with currentStepIndex := 0 }

/-- The `MonoMelody` component state relevant to playback: the audio
service state, the UI's reported current step (`-1` meaning none) and the
playing flag. -/
structure UiState where
  audio : AudioState
  currentStep : Int
  isPlaying : Bool
deriving DecidableEq, Repr

/-- `handleStop` in `MonoMelody`: stop the audio service, clear the
playing flag, and reset the reported step to `-1` ("none"). -/
def handleStop (ui : UiState) : UiState :=
  { audio := ZAM.stop ui.audio, currentStep := -1, isPlaying := false }

/-- C8: stop resets the reported step position to "none" (-1) and
silences all voices; pause silences voices but preserves the current step
index for resume; and starting, pausing and stopping are idempotent —
repeating any of them from the state it just produced (where the
transport already matches) changes nothing, and starting with the
transport already started changes nothing at all. -/
theorem transport_stop_pause_idempotent :
    (∀ ui : UiState,
      (handleStop ui).currentStep = -1 ∧
      (handleStop ui).audio.melodyVoices = false ∧
      (handleStop ui).audio.chordVoices = false ∧
      (handleStop ui).audio.transport = .stopped) ∧
    (∀ st : AudioState,
      (pause st).melodyVoices = false ∧
      (pause st).chordVoices = false ∧
      (pause st).transport = .paused ∧
      (pause st).currentStepIndex = st.currentStepIndex) ∧
    (∀ st : AudioState, play (play st) = play st) ∧
    (∀ st : AudioState, pause (pause st) = pause st) ∧
    (∀ st : AudioState, stop (stop st) = stop st) ∧
    (∀ ui : UiState, handleStop (handleStop ui) = handleStop ui) ∧
    (∀ st : AudioState, st.transport = .started → play st = st) := by
  refine ⟨fun ui => ⟨rfl, rfl, rfl, rfl⟩, fun st => ⟨rfl, rfl, rfl, rfl⟩,
    fun st => rfl, fun st => rfl, fun st => rfl, fun ui => rfl, ?_⟩
  intro st h
  show { st with transport := .started } = st
  rw [← h]

/-- Witness for C8 at a concrete started state. -/
theorem transport_stop_pause_idempotent_witness :
    (⟨.started, 5, true, true⟩ : AudioState).transport = .started ∧
    play ⟨.started, 5, true, true⟩ = ⟨.started, 5, true, true⟩ :=
  ⟨rfl, transport_stop_pause_idempotent.2.2.2.2.2.2 ⟨.started, 5, true, true⟩ rfl⟩

end ZAM
